import Mathlib

/-!
Shallow embedding of `.github/scripts/notion_watch.py`: a single-file script
that polls the Notion API for newly created database pages and page blocks and
posts notifications to a Slack webhook, with a JSON checkpoint file for
deduplication across runs.

Modelling conventions:
* Python dicts from the Notion API are modelled by structures holding exactly
  the fields the script reads; an `Option` field models key absence.
* Python string slicing `s[:n]` slices by characters (code points); it is
  modelled by `takeChars`.
* Timestamps are modelled by their ISO-8601 UTC strings.  `dateutil` parsing
  is abstracted as the identity and comparison of the parsed instants as the
  lexicographic comparison of the strings, which coincide for ISO-8601 UTC
  strings in one common format.
* The network is modelled by response streams / oracles; the filesystem and
  the Slack webhook by an explicit `World` threaded through a state-error
  monad `M`, mirroring Python exception propagation (an uncaught exception
  leaves all prior external effects in place and skips the rest of the run).
-/

namespace NotionWatch

/-! ## JSON values and the state store (`load_state` / `save_state`) -/

/-- A JSON value, as produced by Python's `json` module for the shapes this
script writes (`null`, strings, arrays, objects).  `json.dump` followed by
`json.load` is the identity on such values, so the textual layer is
abstracted away and the state file on disk is modelled as a `Json` value. -/
inductive Json where
  | null
  | str (s : String)
  | arr (elems : List Json)
  | obj (fields : List (String × Json))

/-- Python `d.get(k)` on a JSON object (None when absent or not an object). -/
def Json.get : Json → String → Option Json
  | .obj fs, k => fs.lookup k
  | _, _ => none

/-- The checkpoint state: the script's state dict, viewed through the two
fields `main` reads (`state.get("last_checked")`,
`set(state.get("seen_ids", []))`). -/
structure Checkpoint where
  last_checked : Option String
  seen_ids : List String
deriving DecidableEq

/-- Model of `save_state`: `json.dump(state, f)` — serializes the state dict,
overwriting the file; the written file is the state's JSON value. -/
def save_state (c : Checkpoint) : Json :=
  .obj [("last_checked", match c.last_checked with
          | none => .null
          | some s => .str s),
        ("seen_ids", .arr (c.seen_ids.map .str))]

/-- Reading the checkpoint out of a parsed state file, as `main` does:
`state.get("last_checked")` (a non-string such as `null` reads as absent) and
`set(state.get("seen_ids", []))` (string elements of the array). -/
def readCheckpoint (j : Json) : Checkpoint :=
  { last_checked := match j.get "last_checked" with
      | some (.str s) => some s
      | _ => none
    seen_ids := match j.get "seen_ids" with
      | some (.arr xs) => xs.filterMap fun x => match x with
          | .str s => some s
          | _ => none
      | _ => [] }

/-- Model of `load_state`: returns the default first-run state when absent,
otherwise `json.load` of the file (viewed as a `Checkpoint`). -/
def load_state (file : Option Json) : Checkpoint :=
  match file with
  | none => { last_checked := none, seen_ids := [] }
  | some j => readCheckpoint j

/-! ## Formatter (`page_title`, `page_url`, `format_page_block`,
`format_block_item`) -/

/-- A Notion rich-text run; only `plain_text` is read (`r.get("plain_text", "")`,
the default modelled by reading an always-present field). -/
structure RichText where
  plain_text : String
deriving DecidableEq

/-- Python `"".join(r.get("plain_text", "") for r in rich)`. -/
def joinPlainText (rich : List RichText) : String :=
  String.join (rich.map (·.plain_text))

/-- Python character slicing `s[:n]`. -/
def takeChars (s : String) (n : Nat) : String :=
  ⟨s.data.take n⟩

/-- A property value of a Notion page: its `type` tag and its `title`
rich-text array (`v.get("title", [])`). -/
structure PageProperty where
  type : String
  title : List RichText
deriving DecidableEq

/-- A Notion database page, holding the fields the script reads.  `properties`
is ordered as Python dict iteration (`props.values()`). -/
structure Page where
  id : String
  created_time : String
  url : Option String
  properties : List PageProperty
deriving DecidableEq

/-- Model of `page_title`: scan the properties in order for a `type == "title"` property
whose `title` array is non-empty; join its runs' plain text, slice to 120
characters, and fall back to `"(제목 없음)"` if that is empty; if no such
property is found, return `"(제목 없음)"`. -/
def page_title (page : Page) : String :=
  go page.properties
where
  go : List PageProperty → String
  | [] => "(제목 없음)"
  | v :: rest =>
    if v.type = "title" then
      if v.title ≠ [] then
        let s := takeChars (joinPlainText v.title) 120
        if s = "" then "(제목 없음)" else s
      else go rest
    else go rest

/-- Model of `page_url`: `page.get("url", "https://www.notion.so")`. -/
def page_url (page : Page) : String :=
  page.url.getD "https://www.notion.so"

/-- One entry of a Slack `fields`/`text` object: `{"type": ..., "text": ...}`. -/
structure SlackField where
  type : String
  text : String
deriving DecidableEq

/-- A Slack Block Kit block as this script builds them: a `section` (with an
optional `text` object and a `fields` list) or a `divider`. -/
inductive SlackBlock where
  | section (text : Option SlackField) (fields : List SlackField)
  | divider
deriving DecidableEq

/-- Model of `format_page_block`: the Block Kit payload for a new database page. -/
def format_page_block (page : Page) : List SlackBlock :=
  let title := page_title page
  let url := page_url page
  let created := page.created_time
  [ .section (some ⟨"mrkdwn", "*새 페이지가 생성되었습니다*"⟩) [],
    .section none
      [ ⟨"mrkdwn", "*제목:*\n<" ++ url ++ "|" ++ title ++ ">"⟩,
        ⟨"mrkdwn", "*생성시각 (UTC):*\n" ++ created⟩ ],
    .divider ]

/-- The type-specific payload dict of a block (`block.get(btype, {})` when it
is a dict): the `rich_text` and `text` keys, `none` modelling key absence. -/
structure BlockData where
  rich_text : Option (List RichText)
  text : Option (List RichText)
deriving DecidableEq

/-- A Notion block, holding the fields the script reads.  `data` is
`block.get(btype, {})`; `none` models the value being absent or not a dict
(the `isinstance(data, dict)` guard). -/
structure Block where
  id : String
  type : String
  created_time : String
  data : Option BlockData
deriving DecidableEq

/-- The `txt` computed by `format_block_item`: prefer a present-and-non-empty
`rich_text`, else a present-and-non-empty `text`, each joined and sliced to
200 characters; otherwise the empty string. -/
def blockText (d : BlockData) : String :=
  if d.rich_text.getD [] ≠ [] then takeChars (joinPlainText (d.rich_text.getD [])) 200
  else if d.text.getD [] ≠ [] then takeChars (joinPlainText (d.text.getD [])) 200
  else ""

/-- The preview string placed in the payload: `txt or '(텍스트 없음)'`. -/
def block_preview (blk : Block) : String :=
  let txt := match blk.data with
    | none => ""
    | some d => blockText d
  if txt = "" then "(텍스트 없음)" else txt

/-- Model of `format_block_item`: the Block Kit payload for a new block. -/
def format_block_item (blk : Block) : List SlackBlock :=
  [ .section (some ⟨"mrkdwn", "*페이지 내 새 블록 추가*"⟩) [],
    .section none
      [ ⟨"mrkdwn", "*블록 타입:*\n`" ++ blk.type ++ "`"⟩,
        ⟨"mrkdwn", "*생성시각 (UTC):*\n" ++ blk.created_time⟩ ],
    .section (some ⟨"mrkdwn", "*내용 미리보기:*\n" ++ block_preview blk⟩) [],
    .divider ]

/-! ## Source client (`query_new_db_pages`, `list_new_blocks`) -/

/-- One page of the Notion pagination envelope:
`{results, has_more, next_cursor}`. -/
structure ApiPage (α : Type) where
  results : List α
  has_more : Bool
  next_cursor : Option String
deriving DecidableEq

/-- The pagination loop of `query_new_db_pages`, run against the stream of
responses the API returns to its successive requests (the k-th request —
carrying the cursor from the previous response — is answered by the k-th
stream element).  Returns the concatenated `results` together with the number
of requests issued; `none` if the stream is exhausted while `has_more` was
still set (a behaviour outside the modelled API contract). -/
def query_new_db_pages : List (ApiPage Page) → Option (List Page × Nat)
  | [] => none
  | pg :: rest =>
    if pg.has_more then
      match query_new_db_pages rest with
      | some (res, n) => some (pg.results ++ res, n + 1)
      | none => none
    else some (pg.results, 1)

/-- The filter body `query_new_db_pages` attaches to its query: present with
value `after_iso` exactly when `after_iso` is truthy (`if after_iso:`). -/
def query_filter_after (after_iso : Option String) : Option String :=
  match after_iso with
  | none => none
  | some s => if s = "" then none else some s

/-- Lexicographic order on code-point lists: the comparison of two parsed
ISO-8601 UTC timestamps, which for strings in one common format coincides
with the chronological order of the instants. -/
def charListLt : List Char → List Char → Bool
  | _, [] => false
  | [], _ :: _ => true
  | c :: cs, d :: ds =>
    if c.toNat < d.toNat then true
    else if d.toNat < c.toNat then false
    else charListLt cs ds

/-- Comparison `dtparser.parse a < dtparser.parse b` under the timestamp abstraction. -/
def chronoLt (a b : String) : Bool :=
  charListLt a.data b.data

/-- Modelled from the spec: Remote API A (the workspace query endpoint) is not
part of this repository.  Per spec §6 it holds the collection's records and
answers a query whose body carries a `created_time`/`after` filter with
exactly the records created after that instant (all records when no filter is
sent), paginated.  This definition is its filter semantics on the full record
list; pagination is the chunking fed to `query_new_db_pages`. -/
def dbServerQuery (records : List Page) (filterAfter : Option String) : List Page :=
  records.filter fun r => match filterAfter with
    | none => true
    | some a => chronoLt a r.created_time

/-- The server's chunking of a result list into a response stream: every chunk
but the last is marked `has_more` with a cursor; an empty result list is one
empty final page. -/
def paginate {α : Type} : List (List α) → List (ApiPage α)
  | [] => [⟨[], false, none⟩]
  | [c] => [⟨c, false, none⟩]
  | c :: c' :: rest => ⟨c, true, some "cursor"⟩ :: paginate (c' :: rest)

/-- The pagination loop of `list_new_blocks`, run against the response stream:
each page's results are filtered client-side to blocks with
`dtparser.parse(created_time) > after_dt` (all blocks when `after_dt is
None`), then concatenated across pages; also counts requests. -/
def list_new_blocks (after_dt : Option String) :
    List (ApiPage Block) → Option (List Block × Nat)
  | [] => none
  | pg :: rest =>
    let kept := pg.results.filter fun b => match after_dt with
      | none => true
      | some a => chronoLt a b.created_time
    if pg.has_more then
      match list_new_blocks after_dt rest with
      | some (out, n) => some (kept ++ out, n + 1)
      | none => none
    else some (kept, 1)

/-! ## Notifier (`slack_post`) and the run monad -/

/-- The world outside the process: the state file on disk, and the trace of
external calls — `formatted` records the ids of items passed to a formatter,
`posted` the `(text, blocks)` payloads delivered to the Slack webhook, and
`notified` the id of the item each delivered payload was for (appended at the
`seen_ids.add(pid)` program point, which is reached exactly when the item's
webhook post succeeded). -/
structure World where
  disk : Option Json
  formatted : List String
  posted : List (String × List SlackBlock)
  notified : List String

/-- The run monad: Python exception propagation over the mutable `World`.
An error (an uncaught exception carrying the offending HTTP status) aborts
the rest of the computation but keeps all external effects made so far. -/
def M (α : Type) : Type := World → Except Nat α × World

instance : Monad M where
  pure a := fun w => (.ok a, w)
  bind x f := fun w =>
    match x w with
    | (.ok a, w') => f a w'
    | (.error e, w') => (.error e, w')

/-- Model of `resp.raise_for_status()` of the `requests` library: raises `HTTPError`
exactly for status codes 400–599. -/
def raise_for_status (status : Nat) : Except Nat Unit :=
  if 400 ≤ status ∧ status < 600 then .error status else .ok ()

/-- Model of `slack_post(text, blocks)` when the webhook answers with `status`: a
single POST of `{"text": text, "blocks": blocks}` followed by
`raise_for_status` — on success the payload is delivered once, on a 4xx/5xx
status the exception propagates. -/
def slack_post (status : Nat) (text : String) (blocks : List SlackBlock) : M Unit :=
  fun w =>
    match raise_for_status status with
    | .ok _ => (.ok (), { w with posted := w.posted ++ [(text, blocks)] })
    | .error e => (.error e, w)

/-- Invoking a formatter on a page: pure, but traced in `World.formatted`. -/
def callFormatPage (p : Page) : M (List SlackBlock) :=
  fun w => (.ok (format_page_block p), { w with formatted := w.formatted ++ [p.id] })

/-- Invoking a formatter on a block: pure, but traced in `World.formatted`. -/
def callFormatBlock (b : Block) : M (List SlackBlock) :=
  fun w => (.ok (format_block_item b), { w with formatted := w.formatted ++ [b.id] })

/-- The trace mark at the `seen_ids.add(pid)` program point: the item `pid`
has been successfully notified. -/
def markNotified (pid : String) : M Unit :=
  fun w => (.ok (), { w with notified := w.notified ++ [pid] })

/-- Reading the state file inside the run (`load_state()` in `main`). -/
def loadStateM : M Checkpoint :=
  fun w => (.ok (load_state w.disk), w)

/-- Writing the state file inside the run (`save_state(state)` in `main`). -/
def saveStateM (c : Checkpoint) : M Unit :=
  fun _w => (.ok (), { _w with disk := some (save_state c) })

/-! ## Orchestrator (`main`) -/

/-- The inner loop of `main` over one database's fetched pages: skip ids
already in `seen_ids`, otherwise format, post (the webhook's status for the
k-th post of the run is `postStatus k`), then add the id to `seen_ids`. -/
def processPages (postStatus : Nat → Nat) :
    List Page → List String → M (List String)
  | [], seen => pure seen
  | p :: rest, seen =>
    if p.id ∈ seen then processPages postStatus rest seen
    else do
      let blocks ← callFormatPage p
      (fun w => slack_post (postStatus w.posted.length) "Notion 새 페이지" blocks w)
      markNotified p.id
      processPages postStatus rest (p.id :: seen)

/-- The inner loop of `main` over one document's fetched blocks. -/
def processBlocks (postStatus : Nat → Nat) :
    List Block → List String → M (List String)
  | [], seen => pure seen
  | b :: rest, seen =>
    if b.id ∈ seen then processBlocks postStatus rest seen
    else do
      let blocks ← callFormatBlock b
      (fun w => slack_post (postStatus w.posted.length) "Notion 새 블록" blocks w)
      markNotified b.id
      processBlocks postStatus rest (b.id :: seen)

/-- Loop `for dbid in DB_IDS:` — fetch each database's new pages (the composite
fetch, pagination included, is the oracle `dbFetch`, which may raise) and
process them. -/
def processDbs (postStatus : Nat → Nat) (dbFetch : String → Except Nat (List Page)) :
    List String → List String → M (List String)
  | [], seen => pure seen
  | dbid :: rest, seen => do
    let pages ← fun w => (dbFetch dbid, w)
    let seen' ← processPages postStatus pages seen
    processDbs postStatus dbFetch rest seen'

/-- Loop `for pgid in PAGE_IDS:` — fetch each document's new blocks and process
them. -/
def processDocs (postStatus : Nat → Nat) (blockFetch : String → Except Nat (List Block)) :
    List String → List String → M (List String)
  | [], seen => pure seen
  | pgid :: rest, seen => do
    let blks ← fun w => (blockFetch pgid, w)
    let seen' ← processBlocks postStatus blks seen
    processDocs postStatus blockFetch rest seen'

/-- The `since` boundary `main` computes: `now` when the loaded
`last_checked` is falsy (`None` or `""`), otherwise the stored value. -/
def runBoundary (last_checked : Option String) (now : String) : String :=
  match last_checked with
  | none => now
  | some s => if s = "" then now else s

/-- Model of `main()`: load state, compute the boundary, process all databases then
all documents, then overwrite `last_checked` with the end-of-run time and
save.  `now` is the time at run start, `nowEnd` the `now_iso()` taken at the
save; the fetch oracles receive the boundary that `main` passes them
(`after_iso`, and `after_dt` parsed from it when truthy). -/
def mainModel (postStatus : Nat → Nat)
    (dbFetch : String → String → Except Nat (List Page))
    (blockFetch : Option String → String → Except Nat (List Block))
    (dbIds pageIds : List String) (now nowEnd : String) : M Unit := do
  let state ← loadStateM
  let seen := state.seen_ids
  let boundary := runBoundary state.last_checked now
  let seen' ← processDbs postStatus (dbFetch boundary) dbIds seen
  let afterDt := if boundary = "" then none else some boundary
  let seen'' ← if pageIds.isEmpty then pure seen'
    else processDocs postStatus (blockFetch afterDt) pageIds seen'
  saveStateM { last_checked := some nowEnd, seen_ids := seen'' }

/-! ## Helper lemmas -/

theorem takeChars_of_le (s : String) (n : Nat) (h : s.length ≤ n) :
    takeChars s n = s := by
  unfold takeChars
  cases s with
  | mk data => simpa using congrArg String.mk (List.take_of_length_le h)

theorem length_takeChars (s : String) (n : Nat) :
    (takeChars s n).length = min n s.length := by
  unfold takeChars
  cases s with
  | mk data => simp [String.length]

theorem takeChars_ne_empty (s : String) (n : Nat) (hn : n ≠ 0) (hs : s ≠ "") :
    takeChars s n ≠ "" := by
  intro h
  apply hs
  have hlen := congrArg String.length h
  rw [length_takeChars] at hlen
  simp only [String.length] at hlen
  rcases Nat.min_eq_zero_iff.mp hlen with h' | h'
  · exact absurd h' hn
  · cases s with
    | mk data =>
      cases data with
      | nil => rfl
      | cons c cs => simp at h'

theorem filterMap_str_map (l : List String) :
    List.filterMap
      ((fun x => match x with | Json.str s => some s | _ => none) ∘ Json.str)
      l = l := by
  induction l with
  | nil => rfl
  | cons a t ih => simp only [List.filterMap_cons, Function.comp, ih]

/-- The scanning loop of `page_title` skips properties that are not
title-typed (and title-typed properties with an empty rich-text array). -/
theorem page_title_go_append (pre l : List PageProperty)
    (hpre : ∀ u ∈ pre, u.type ≠ "title") :
    page_title.go (pre ++ l) = page_title.go l := by
  induction pre with
  | nil => rfl
  | cons u rest ih =>
    have hu : u.type ≠ "title" := hpre u (by simp)
    simp only [List.cons_append, page_title.go, if_neg hu]
    exact ih fun v hv => hpre v (by simp [hv])

theorem page_title_go_no_title (l : List PageProperty)
    (h : ∀ u ∈ l, u.type ≠ "title") :
    page_title.go l = "(제목 없음)" := by
  induction l with
  | nil => rfl
  | cons u rest ih =>
    have hu : u.type ≠ "title" := h u (by simp)
    simp only [page_title.go, if_neg hu]
    exact ih fun v hv => h v (by simp [hv])

/-! ## Claim theorems -/

/-- C4: saving a checkpoint with `save_state` and loading it back with
`load_state` returns a checkpoint with an identical timestamp and exactly the
same set of identifiers (order irrelevant). -/
theorem load_save_roundtrip (c : Checkpoint) :
    (load_state (some (save_state c))).last_checked = c.last_checked ∧
    ∀ x : String,
      x ∈ (load_state (some (save_state c))).seen_ids ↔ x ∈ c.seen_ids := by
  have hck : load_state (some (save_state c)) = c := by
    cases c with
    | mk lc ids =>
      unfold load_state save_state readCheckpoint Json.get
      cases lc <;> simp [List.lookup, filterMap_str_map]
  rw [hck]
  exact ⟨rfl, fun _ => Iff.rfl⟩

/-- C5 (amended): `page_title` scans the properties in order for the first
title-type property with content and joins its rich-text runs; with no
title-type property at all it returns the placeholder `"(제목 없음)"` (the
code's literal, not `"(no title)"`). -/
theorem page_title_scan_and_fallback :
    (∀ (p : Page) (pre post : List PageProperty) (v : PageProperty),
        p.properties = pre ++ v :: post →
        (∀ u ∈ pre, u.type ≠ "title") →
        v.type = "title" → v.title ≠ [] →
        (joinPlainText v.title).length ≤ 120 → joinPlainText v.title ≠ "" →
        page_title p = joinPlainText v.title) ∧
    (∀ p : Page, (∀ u ∈ p.properties, u.type ≠ "title") →
        page_title p = "(제목 없음)") := by
  constructor
  · intro p pre post v hsplit hpre hv hne hlen hnonempty
    unfold page_title
    rw [hsplit, page_title_go_append pre (v :: post) hpre]
    simp only [page_title.go, if_pos hv, if_pos hne]
    rw [takeChars_of_le _ _ hlen, if_neg hnonempty]
  · intro p h
    unfold page_title
    exact page_title_go_no_title _ h

/-- The Hello/World page of the spec's title-extraction example. -/
def helloPage : Page :=
  ⟨"p1", "2024-01-01T00:00:00+00:00", none,
   [⟨"rich_text", []⟩, ⟨"title", [⟨"Hello "⟩, ⟨"World"⟩]⟩]⟩

/-- A page with no title-type property at all. -/
def noTitlePage : Page :=
  ⟨"p2", "2024-01-01T00:00:00+00:00", none, [⟨"rich_text", [⟨"x"⟩]⟩]⟩

/-- C5 witness: the amended claim at the spec's own examples. -/
theorem page_title_scan_and_fallback_witness :
    page_title helloPage = "Hello World" ∧
    page_title noTitlePage = "(제목 없음)" := by
  constructor
  · have h := page_title_scan_and_fallback.1 helloPage
      [⟨"rich_text", []⟩] [] ⟨"title", [⟨"Hello "⟩, ⟨"World"⟩]⟩
      rfl (by decide) rfl (by decide) (by decide) (by decide)
    exact h.trans (by decide)
  · exact page_title_scan_and_fallback.2 noTitlePage (by decide)

/-- C5 counterexample: for a record with no title-type property the code's
placeholder is the Korean literal `"(제목 없음)"`, not `"(no title)"` as the
claim states. -/
theorem page_title_placeholder_counterexample :
    page_title noTitlePage = "(제목 없음)" ∧
    page_title noTitlePage ≠ "(no title)" := by
  constructor
  · decide
  · decide

/-- C6: when the concatenated title text has 130 characters, `page_title`
slices the whole joined string to exactly 120 characters — one cap applied
after joining the runs, not per run — and `format_page_block` places exactly
that sliced string in the payload. -/
theorem title_truncated_to_120 (p : Page) (pre post : List PageProperty)
    (v : PageProperty)
    (hsplit : p.properties = pre ++ v :: post)
    (hpre : ∀ u ∈ pre, u.type ≠ "title")
    (hv : v.type = "title") (hne : v.title ≠ [])
    (hlen : (joinPlainText v.title).length = 130) :
    page_title p = takeChars (joinPlainText v.title) 120 ∧
    (page_title p).length = 120 ∧
    format_page_block p =
      [ .section (some ⟨"mrkdwn", "*새 페이지가 생성되었습니다*"⟩) [],
        .section none
          [ ⟨"mrkdwn", "*제목:*\n<" ++ page_url p ++ "|" ++
              takeChars (joinPlainText v.title) 120 ++ ">"⟩,
            ⟨"mrkdwn", "*생성시각 (UTC):*\n" ++ p.created_time⟩ ],
        .divider ] := by
  have hs : joinPlainText v.title ≠ "" := by
    intro h
    rw [h] at hlen
    simp [String.length] at hlen
  have htr : takeChars (joinPlainText v.title) 120 ≠ "" :=
    takeChars_ne_empty _ _ (by decide) hs
  have h1 : page_title p = takeChars (joinPlainText v.title) 120 := by
    unfold page_title
    rw [hsplit, page_title_go_append pre (v :: post) hpre]
    simp only [page_title.go, if_pos hv, if_pos hne, if_neg htr]
  refine ⟨h1, ?_, ?_⟩
  · rw [h1, length_takeChars, hlen]
    decide
  · unfold format_page_block
    rw [h1]

/-- A 130-character title split into two 65-character runs: slicing each run
to 120 characters would change nothing, while the code's single cap after
concatenation yields 120 characters. -/
def longTitlePage : Page :=
  ⟨"p3", "2024-01-01T00:00:00+00:00", none,
   [⟨"title",
     [⟨"aaaaaaaaaaaaaaaaaaaaaaaaaaaaaaaaaaaaaaaaaaaaaaaaaaaaaaaaaaaaaaaaa"⟩,
      ⟨"bbbbbbbbbbbbbbbbbbbbbbbbbbbbbbbbbbbbbbbbbbbbbbbbbbbbbbbbbbbbbbbbb"⟩]⟩]⟩

set_option maxRecDepth 4000 in
/-- C6 witness: the 130-character example evaluated. -/
theorem title_truncated_to_120_witness :
    (page_title longTitlePage).length = 120 := by
  have h := title_truncated_to_120 longTitlePage []
    [] ⟨"title", [⟨"aaaaaaaaaaaaaaaaaaaaaaaaaaaaaaaaaaaaaaaaaaaaaaaaaaaaaaaaaaaaaaaaa"⟩,
                  ⟨"bbbbbbbbbbbbbbbbbbbbbbbbbbbbbbbbbbbbbbbbbbbbbbbbbbbbbbbbbbbbbbbbb"⟩]⟩
    rfl (by simp) rfl (by decide) (by decide)
  exact h.2.1

/-- C7 (amended): `format_block_item`'s preview prefers a present, non-empty
`rich_text` over `text` (joined and sliced to 200 characters, provided the
joined text is non-empty); with no usable field the preview is the
placeholder `"(텍스트 없음)"` (the code's literal, not `"(no text)"`). -/
theorem block_preview_prefers_rich_text :
    (∀ (b : Block) (d : BlockData) (rt t : List RichText),
        b.data = some d → d.rich_text = some rt → rt ≠ [] →
        d.text = some t → t ≠ [] → joinPlainText rt ≠ "" →
        block_preview b = takeChars (joinPlainText rt) 200) ∧
    (∀ (b : Block) (d : BlockData),
        b.data = some d → d.rich_text.getD [] = [] → d.text.getD [] = [] →
        block_preview b = "(텍스트 없음)") ∧
    (∀ b : Block, b.data = none → block_preview b = "(텍스트 없음)") := by
  refine ⟨?_, ?_, ?_⟩
  · intro b d rt t hb hrt hrtne _ht _htne hjoin
    have htr : takeChars (joinPlainText rt) 200 ≠ "" :=
      takeChars_ne_empty _ _ (by decide) hjoin
    unfold block_preview blockText
    rw [hb]
    simp only [hrt, Option.getD_some, if_pos hrtne, if_neg htr]
  · intro b d hb hrt ht
    unfold block_preview blockText
    rw [hb]
    simp [hrt, ht]
  · intro b hb
    unfold block_preview
    rw [hb]
    decide

/-- A block whose payload carries both a `rich_text` and a `text` field. -/
def bothFieldsBlock : Block :=
  ⟨"b1", "paragraph", "2024-01-01T00:00:00+00:00",
   some ⟨some [⟨"from rich_text"⟩], some [⟨"from text"⟩]⟩⟩

/-- A block whose payload carries both fields, both empty. -/
def emptyFieldsBlock : Block :=
  ⟨"b2", "paragraph", "2024-01-01T00:00:00+00:00", some ⟨some [], some []⟩⟩

/-- C7 witness: the preference and the fallback evaluated. -/
theorem block_preview_prefers_rich_text_witness :
    block_preview bothFieldsBlock = "from rich_text" ∧
    block_preview emptyFieldsBlock = "(텍스트 없음)" := by
  constructor
  · have h := block_preview_prefers_rich_text.1 bothFieldsBlock
      ⟨some [⟨"from rich_text"⟩], some [⟨"from text"⟩]⟩
      [⟨"from rich_text"⟩] [⟨"from text"⟩]
      rfl rfl (by decide) rfl (by decide) (by decide)
    exact h.trans (by decide)
  · exact block_preview_prefers_rich_text.2.1 emptyFieldsBlock
      ⟨some [], some []⟩ rfl (by decide) (by decide)

/-- A block with no type-specific dict payload at all. -/
def noDataBlock : Block :=
  ⟨"b3", "divider", "2024-01-01T00:00:00+00:00", none⟩

/-- C7 counterexample: with neither text field present the code's placeholder
is the Korean literal `"(텍스트 없음)"`, not `"(no text)"` as the claim
states. -/
theorem block_preview_placeholder_counterexample :
    block_preview noDataBlock = "(텍스트 없음)" ∧
    block_preview noDataBlock ≠ "(no text)" := by
  constructor
  · decide
  · decide

/-- C10: a record lacking a `url` key still formats — the link target falls
back to `"https://www.notion.so"` while the title and creation-time fields
are produced as usual. -/
theorem format_page_block_url_fallback (p : Page) (h : p.url = none) :
    format_page_block p =
      [ .section (some ⟨"mrkdwn", "*새 페이지가 생성되었습니다*"⟩) [],
        .section none
          [ ⟨"mrkdwn", "*제목:*\n<https://www.notion.so|" ++ page_title p ++ ">"⟩,
            ⟨"mrkdwn", "*생성시각 (UTC):*\n" ++ p.created_time⟩ ],
        .divider ] := by
  unfold format_page_block page_url
  rw [h]
  rfl

/-- C10 witness: the fallback evaluated on a concrete url-less record. -/
theorem format_page_block_url_fallback_witness :
    format_page_block noTitlePage =
      [ .section (some ⟨"mrkdwn", "*새 페이지가 생성되었습니다*"⟩) [],
        .section none
          [ ⟨"mrkdwn", "*제목:*\n<https://www.notion.so|" ++
              page_title noTitlePage ++ ">"⟩,
            ⟨"mrkdwn", "*생성시각 (UTC):*\n" ++ noTitlePage.created_time⟩ ],
        .divider ] :=
  format_page_block_url_fallback noTitlePage rfl

/-- A world with nothing on disk and empty call traces. -/
def w0 : World := ⟨none, [], [], []⟩

/-- C9 (amended): `slack_post` raises exactly for 4xx/5xx statuses — the
exception propagates with nothing delivered — and otherwise delivers the
payload exactly once (no retry); in particular 2xx is not an error, but a
3xx response is not treated as an error either. -/
theorem slack_post_raises_iff (status : Nat) (text : String)
    (blocks : List SlackBlock) (w : World) :
    (400 ≤ status ∧ status < 600 →
      slack_post status text blocks w = (.error status, w)) ∧
    (¬(400 ≤ status ∧ status < 600) →
      slack_post status text blocks w =
        (.ok (), { w with posted := w.posted ++ [(text, blocks)] })) := by
  constructor
  · intro h
    unfold slack_post raise_for_status
    rw [if_pos h]
  · intro h
    unfold slack_post raise_for_status
    rw [if_neg h]

/-- C9 witness: a 500 raises and delivers nothing; a 204 delivers once. -/
theorem slack_post_raises_iff_witness :
    slack_post 500 "x" [] w0 = (.error 500, w0) ∧
    slack_post 204 "x" [] w0 =
      (.ok (), { w0 with posted := w0.posted ++ [("x", [])] }) :=
  ⟨(slack_post_raises_iff 500 "x" [] w0).1 (by decide),
   (slack_post_raises_iff 204 "x" [] w0).2 (by decide)⟩

/-- C9 counterexample: a 302 response is not 2xx, yet `slack_post` does not
raise on it (`raise_for_status` only raises for 4xx/5xx), refuting "any
response with a non-2xx status code is treated as an error". -/
theorem slack_post_302_counterexample :
    ¬(200 ≤ 302 ∧ 302 < 300) ∧ (slack_post 302 "x" [] w0).1 = .ok () := by
  constructor
  · decide
  · rfl

/-- C8: against a response sequence whose every page but the last has
`has_more = true` and whose last has `has_more = false`, the pagination loop
of `query_new_db_pages` issues exactly one request per page and returns all
pages' results concatenated in request order. -/
theorem query_new_db_pages_pagination (init : List (ApiPage Page))
    (last : ApiPage Page)
    (hinit : ∀ pg ∈ init, pg.has_more = true)
    (hlast : last.has_more = false) :
    query_new_db_pages (init ++ [last]) =
      some (((init ++ [last]).map ApiPage.results).flatten, init.length + 1) := by
  induction init with
  | nil => simp [query_new_db_pages, hlast]
  | cons pg rest ih =>
    have h1 : pg.has_more = true := hinit pg (by simp)
    have h2 := ih fun q hq => hinit q (by simp [hq])
    simp [query_new_db_pages, h1, h2]

/-- Three one-record response pages for the C8 witness. -/
def pageA : Page := ⟨"A", "2024-01-01T00:00:01+00:00", none, []⟩

def pageB : Page := ⟨"B", "2024-01-01T00:00:02+00:00", none, []⟩

def pageC : Page := ⟨"C", "2024-01-01T00:00:03+00:00", none, []⟩

/-- C8 witness: three pages, the first two with `has_more`, give exactly 3
requests and the results concatenated in request order. -/
theorem query_new_db_pages_pagination_witness :
    query_new_db_pages
      [⟨[pageA], true, some "c1"⟩, ⟨[pageB], true, some "c2"⟩,
       ⟨[pageC], false, none⟩] =
      some ([pageA, pageB, pageC], 3) := by
  have h := query_new_db_pages_pagination
    [⟨[pageA], true, some "c1"⟩, ⟨[pageB], true, some "c2"⟩]
    ⟨[pageC], false, none⟩ (by simp) rfl
  simpa using h

/-- Every record a response stream built by `paginate` hands to
`query_new_db_pages` is returned, in chunk order. -/
theorem query_new_db_pages_paginate (chunks : List (List Page)) :
    ∃ k, query_new_db_pages (paginate chunks) = some (chunks.flatten, k) := by
  induction chunks with
  | nil => exact ⟨1, rfl⟩
  | cons c rest ih =>
    cases rest with
    | nil => exact ⟨1, by simp [paginate, query_new_db_pages]⟩
    | cons c' rest' =>
      obtain ⟨k, hk⟩ := ih
      exact ⟨k + 1, by simp [paginate, query_new_db_pages, hk]⟩

/-- Asymmetry of `charListLt`. -/
theorem charListLt_asymm (x y : List Char) (h : charListLt x y = true) :
    charListLt y x = false := by
  induction x generalizing y with
  | nil =>
    cases y with
    | nil => cases h
    | cons d ds => rfl
  | cons c cs ih =>
    cases y with
    | nil => cases h
    | cons d ds =>
      simp only [charListLt] at h ⊢
      by_cases h1 : c.toNat < d.toNat
      · rw [if_neg (by omega), if_pos h1]
      · by_cases h2 : d.toNat < c.toNat
        · rw [if_neg h1, if_pos h2] at h
          cases h
        · rw [if_neg h1, if_neg h2] at h
          rw [if_neg h2, if_neg h1]
          exact ih ds h

/-- An instant strictly after the boundary is in particular not before it:
"created strictly after `now`" implies "created at or after `now`". -/
theorem chronoLt_asymm (a b : String) (h : chronoLt a b = true) :
    chronoLt b a = false :=
  charListLt_asymm a.data b.data h

/-- Every block kept by `list_new_blocks`'s client-side filter has a creation
time strictly after the `after_dt` bound. -/
theorem list_new_blocks_created_after (a : String)
    (stream : List (ApiPage Block)) :
    ∀ out n, list_new_blocks (some a) stream = some (out, n) →
      ∀ b ∈ out, chronoLt a b.created_time = true := by
  induction stream with
  | nil => intro out n h; cases h
  | cons pg rest ih =>
    intro out n h b hb
    simp only [list_new_blocks] at h
    by_cases hm : pg.has_more = true
    · rw [if_pos hm] at h
      cases hrec : list_new_blocks (some a) rest with
      | none => rw [hrec] at h; cases h
      | some pr =>
        rw [hrec] at h
        cases h
        rcases List.mem_append.mp hb with hmem | hmem
        · exact (List.mem_filter.mp hmem).2
        · exact ih pr.1 pr.2 (by rw [hrec]) b hmem
    · rw [if_neg hm] at h
      cases h
      exact (List.mem_filter.mp hb).2

/-- C2: on a first run (nothing on disk) the loaded timestamp is absent and
the `since` boundary is the run-start time `now`; every record the
(spec-modelled) workspace API returns for the resulting
`created_time`/`after` filter, and every block `list_new_blocks` keeps, was
created strictly after `now` — in particular at or after `now` (not before
it). -/
theorem first_run_boundary (now : String) (hnow : now ≠ "")
    (records : List Page) (chunks : List (List Page))
    (hchunks : chunks.flatten =
      dbServerQuery records (query_filter_after (some now)))
    (stream : List (ApiPage Block)) (out : List Block) (n : Nat)
    (hblocks : list_new_blocks (some now) stream = some (out, n)) :
    (load_state none).last_checked = none ∧
    runBoundary (load_state none).last_checked now = now ∧
    (∀ res k, query_new_db_pages (paginate chunks) = some (res, k) →
      ∀ r ∈ res, chronoLt now r.created_time = true ∧
        chronoLt r.created_time now = false) ∧
    (∀ b ∈ out, chronoLt now b.created_time = true ∧
      chronoLt b.created_time now = false) := by
  refine ⟨rfl, rfl, ?_, ?_⟩
  · intro res k h
    obtain ⟨k', hk⟩ := query_new_db_pages_paginate chunks
    rw [hk] at h
    cases h
    intro r hr
    rw [hchunks] at hr
    unfold dbServerQuery query_filter_after at hr
    simp only [if_neg hnow] at hr
    have hlt := (List.mem_filter.mp hr).2
    exact ⟨hlt, chronoLt_asymm _ _ hlt⟩
  · intro b hb
    have hlt := list_new_blocks_created_after now stream out n hblocks b hb
    exact ⟨hlt, chronoLt_asymm _ _ hlt⟩

/-- Concrete data for the C2 witness: one record and one block created
before the run start, one of each created after. -/
def oldRec : Page := ⟨"old", "2023-12-31T00:00:00+00:00", none, []⟩

def newRec : Page := ⟨"new", "2024-06-01T00:00:00+00:00", none, []⟩

def oldBlk : Block := ⟨"bo", "paragraph", "2023-12-31T00:00:00+00:00", none⟩

def newBlk : Block := ⟨"bn", "paragraph", "2024-06-01T00:00:00+00:00", none⟩

/-- C2 witness: with run start `2024-01-01T00:00:00+00:00`, the first-run
boundary is that instant, the spec-modelled server filters out the old
record, and the items that qualify were created strictly after (hence at or
after) the boundary. -/
theorem first_run_boundary_witness :
    (load_state none).last_checked = none ∧
    runBoundary (load_state none).last_checked "2024-01-01T00:00:00+00:00" =
      "2024-01-01T00:00:00+00:00" ∧
    chronoLt newRec.created_time "2024-01-01T00:00:00+00:00" = false ∧
    chronoLt newBlk.created_time "2024-01-01T00:00:00+00:00" = false := by
  have h := first_run_boundary "2024-01-01T00:00:00+00:00" (by decide)
    [oldRec, newRec] [[newRec]] (by decide)
    [⟨[oldBlk, newBlk], false, none⟩] [newBlk] 1 (by decide)
  obtain ⟨k, hk⟩ := query_new_db_pages_paginate [[newRec]]
  exact ⟨h.1, h.2.1,
    (h.2.2.1 [[newRec]].flatten k hk newRec (by simp)).2,
    (h.2.2.2 newBlk (by simp)).2⟩

/-! ## Orchestrator invariants (for the dedup and no-save-on-error claims) -/

theorem M_bind_eval {α β : Type} (x : M α) (f : α → M β) (w : World) :
    (x >>= f) w = match x w with
      | (.ok a, w') => f a w'
      | (.error e, w') => (.error e, w') := rfl

/-- How one stage of the run relates the world before it to the world and
result after it, for a stage started with the dedup set `seen`: the stage
formats a list `Δ ++ extra` of previously unseen, pairwise-distinct item ids
(`extra` is the at-most-one item whose webhook post failed), notifies exactly
the ids in `Δ`, never touches the disk, and on success returns `seen` grown
by exactly `Δ`. -/
def TraceOK (seen : List String) (w : World)
    (rw : Except Nat (List String) × World) : Prop :=
  ∃ Δ extra,
    rw.2.formatted = w.formatted ++ Δ ++ extra ∧
    rw.2.notified = w.notified ++ Δ ∧
    rw.2.disk = w.disk ∧
    extra.length ≤ 1 ∧
    (Δ ++ extra).Nodup ∧
    (∀ i ∈ Δ ++ extra, i ∉ seen) ∧
    ∀ seen', rw.1 = .ok seen' →
      extra = [] ∧ ∀ i, i ∈ seen' ↔ i ∈ Δ ∨ i ∈ seen

/-- A stage that returns `seen` unchanged and leaves the world alone. -/
theorem TraceOK.refl (seen : List String) (w : World) :
    TraceOK seen w (.ok seen, w) := by
  refine ⟨[], [], by simp, by simp, rfl, by simp, by simp, by simp, ?_⟩
  intro seen' h
  cases h
  exact ⟨rfl, fun i => by simp⟩

/-- A failing stage that leaves the world alone. -/
theorem TraceOK.err (seen : List String) (w : World) (e : Nat) :
    TraceOK seen w (.error e, w) := by
  refine ⟨[], [], by simp, by simp, rfl, by simp, by simp, by simp, ?_⟩
  intro seen' h
  cases h

/-- Two stages in sequence still satisfy `TraceOK`. -/
theorem TraceOK.compose {seen seen₁ : List String} {w w₁ : World}
    {r : Except Nat (List String) × World}
    (h1 : TraceOK seen w (.ok seen₁, w₁)) (h2 : TraceOK seen₁ w₁ r) :
    TraceOK seen w r := by
  obtain ⟨Δ₁, e₁, hf₁, hn₁, hd₁, _he₁, hnd₁, hout₁, hok₁⟩ := h1
  obtain ⟨he₁, hseen₁⟩ := hok₁ seen₁ rfl
  subst he₁
  simp only [List.append_nil] at hf₁
  obtain ⟨Δ₂, e₂, hf₂, hn₂, hd₂, he₂, hnd₂, hout₂, hok₂⟩ := h2
  refine ⟨Δ₁ ++ Δ₂, e₂, ?_, ?_, ?_, he₂, ?_, ?_, ?_⟩
  · rw [hf₂, hf₁]
    simp [List.append_assoc]
  · rw [hn₂, hn₁, List.append_assoc]
  · rw [hd₂, hd₁]
  · rw [List.append_assoc]
    rw [List.nodup_append] at hnd₁ ⊢
    refine ⟨hnd₁.1, hnd₂, ?_⟩
    intro i hi₁ hi₂
    exact (hout₂ i hi₂) ((hseen₁ i).mpr (Or.inl hi₁))
  · intro i hi
    rcases List.mem_append.mp hi with hi | hi
    · rcases List.mem_append.mp hi with hi | hi
      · exact hout₁ i (by simp [hi])
      · intro hc
        exact hout₂ i (by simp [hi]) ((hseen₁ i).mpr (Or.inr hc))
    · intro hc
      exact hout₂ i (by simp [hi]) ((hseen₁ i).mpr (Or.inr hc))
  · intro seen' hr
    obtain ⟨he, hseen₂⟩ := hok₂ seen' hr
    refine ⟨he, fun i => ?_⟩
    rw [hseen₂ i, hseen₁ i]
    simp only [List.mem_append]
    tauto

/-- The per-item loop over fetched database pages satisfies `TraceOK`: items
whose id is in `seen` are skipped outright, and each processed item is
formatted once, posted once, and added to `seen`, so no id is ever processed
twice. -/
theorem processPages_traceOK (postStatus : Nat → Nat) (pages : List Page) :
    ∀ (seen : List String) (w : World),
      TraceOK seen w (processPages postStatus pages seen w) := by
  induction pages with
  | nil =>
    intro seen w
    exact TraceOK.refl seen w
  | cons p rest ih =>
    intro seen w
    by_cases hmem : p.id ∈ seen
    · have heq : processPages postStatus (p :: rest) seen w
          = processPages postStatus rest seen w := by
        simp only [processPages, if_pos hmem]
      rw [heq]
      exact ih seen w
    · have h1 : processPages postStatus (p :: rest) seen w
          = ((fun w => slack_post (postStatus w.posted.length)
                "Notion 새 페이지" (format_page_block p) w) >>= fun _ =>
              markNotified p.id >>= fun _ =>
              processPages postStatus rest (p.id :: seen))
            { w with formatted := w.formatted ++ [p.id] } := by
        simp only [processPages, if_neg hmem]
        rfl
      rw [h1, M_bind_eval]
      simp only [slack_post]
      cases hrf : raise_for_status
          (postStatus ({ w with formatted := w.formatted ++ [p.id] }
            : World).posted.length) with
      | error e =>
        refine ⟨[], [p.id], by simp, by simp, rfl, by simp, by simp, ?_, ?_⟩
        · intro i hi
          simp at hi
          rw [hi]
          exact hmem
        · intro seen' h
          cases h
      | ok u =>
        dsimp only
        rw [M_bind_eval]
        dsimp only [markNotified]
        have ht := ih (p.id :: seen)
          { w with formatted := w.formatted ++ [p.id],
                   posted := w.posted ++
                     [("Notion 새 페이지", format_page_block p)],
                   notified := w.notified ++ [p.id] }
        obtain ⟨Δ, extra, hf, hn, hd, he, hnd, hout, hok⟩ := ht
        refine ⟨p.id :: Δ, extra, ?_, ?_, ?_, he, ?_, ?_, ?_⟩
        · rw [hf]
          simp
        · rw [hn]
          simp
        · rw [hd]
        · simp only [List.cons_append, List.nodup_cons]
          refine ⟨?_, hnd⟩
          intro hc
          exact hout p.id hc (by simp)
        · intro i hi
          simp only [List.cons_append, List.mem_cons] at hi
          rcases hi with hi | hi
          · rw [hi]; exact hmem
          · intro hc
            exact hout i hi (by simp [hc])
        · intro seen' h
          obtain ⟨he', hseen⟩ := hok seen' h
          refine ⟨he', fun i => ?_⟩
          rw [hseen i]
          simp only [List.mem_cons]
          tauto

/-- The per-item loop over fetched blocks satisfies `TraceOK`. -/
theorem processBlocks_traceOK (postStatus : Nat → Nat) (blks : List Block) :
    ∀ (seen : List String) (w : World),
      TraceOK seen w (processBlocks postStatus blks seen w) := by
  induction blks with
  | nil =>
    intro seen w
    exact TraceOK.refl seen w
  | cons b rest ih =>
    intro seen w
    by_cases hmem : b.id ∈ seen
    · have heq : processBlocks postStatus (b :: rest) seen w
          = processBlocks postStatus rest seen w := by
        simp only [processBlocks, if_pos hmem]
      rw [heq]
      exact ih seen w
    · have h1 : processBlocks postStatus (b :: rest) seen w
          = ((fun w => slack_post (postStatus w.posted.length)
                "Notion 새 블록" (format_block_item b) w) >>= fun _ =>
              markNotified b.id >>= fun _ =>
              processBlocks postStatus rest (b.id :: seen))
            { w with formatted := w.formatted ++ [b.id] } := by
        simp only [processBlocks, if_neg hmem]
        rfl
      rw [h1, M_bind_eval]
      simp only [slack_post]
      cases hrf : raise_for_status
          (postStatus ({ w with formatted := w.formatted ++ [b.id] }
            : World).posted.length) with
      | error e =>
        refine ⟨[], [b.id], by simp, by simp, rfl, by simp, by simp, ?_, ?_⟩
        · intro i hi
          simp at hi
          rw [hi]
          exact hmem
        · intro seen' h
          cases h
      | ok u =>
        dsimp only
        rw [M_bind_eval]
        dsimp only [markNotified]
        have ht := ih (b.id :: seen)
          { w with formatted := w.formatted ++ [b.id],
                   posted := w.posted ++
                     [("Notion 새 블록", format_block_item b)],
                   notified := w.notified ++ [b.id] }
        obtain ⟨Δ, extra, hf, hn, hd, he, hnd, hout, hok⟩ := ht
        refine ⟨b.id :: Δ, extra, ?_, ?_, ?_, he, ?_, ?_, ?_⟩
        · rw [hf]
          simp
        · rw [hn]
          simp
        · rw [hd]
        · simp only [List.cons_append, List.nodup_cons]
          refine ⟨?_, hnd⟩
          intro hc
          exact hout b.id hc (by simp)
        · intro i hi
          simp only [List.cons_append, List.mem_cons] at hi
          rcases hi with hi | hi
          · rw [hi]; exact hmem
          · intro hc
            exact hout i hi (by simp [hc])
        · intro seen' h
          obtain ⟨he', hseen⟩ := hok seen' h
          refine ⟨he', fun i => ?_⟩
          rw [hseen i]
          simp only [List.mem_cons]
          tauto

/-- The loop over configured databases satisfies `TraceOK`. -/
theorem processDbs_traceOK (postStatus : Nat → Nat)
    (dbFetch : String → Except Nat (List Page)) (dbIds : List String) :
    ∀ (seen : List String) (w : World),
      TraceOK seen w (processDbs postStatus dbFetch dbIds seen w) := by
  induction dbIds with
  | nil =>
    intro seen w
    exact TraceOK.refl seen w
  | cons dbid rest ih =>
    intro seen w
    have h1 : processDbs postStatus dbFetch (dbid :: rest) seen w
        = match dbFetch dbid with
          | .error e => (.error e, w)
          | .ok pages =>
            ((processPages postStatus pages seen) >>= fun seen' =>
              processDbs postStatus dbFetch rest seen') w := by
      simp only [processDbs]
      cases dbFetch dbid <;> rfl
    rw [h1]
    cases hfetch : dbFetch dbid with
    | error e => exact TraceOK.err seen w e
    | ok pages =>
      dsimp only
      rw [M_bind_eval]
      have hpp := processPages_traceOK postStatus pages seen w
      cases hres : processPages postStatus pages seen w with
      | mk r w₁ =>
        rw [hres] at hpp
        cases r with
        | error e =>
          obtain ⟨Δ, extra, hf, hn, hd, he, hnd, hout, _⟩ := hpp
          exact ⟨Δ, extra, hf, hn, hd, he, hnd, hout, fun _ h => by cases h⟩
        | ok seen₁ =>
          exact TraceOK.compose hpp (ih seen₁ w₁)

/-- The loop over configured documents satisfies `TraceOK`. -/
theorem processDocs_traceOK (postStatus : Nat → Nat)
    (blockFetch : String → Except Nat (List Block)) (pageIds : List String) :
    ∀ (seen : List String) (w : World),
      TraceOK seen w (processDocs postStatus blockFetch pageIds seen w) := by
  induction pageIds with
  | nil =>
    intro seen w
    exact TraceOK.refl seen w
  | cons pgid rest ih =>
    intro seen w
    have h1 : processDocs postStatus blockFetch (pgid :: rest) seen w
        = match blockFetch pgid with
          | .error e => (.error e, w)
          | .ok blks =>
            ((processBlocks postStatus blks seen) >>= fun seen' =>
              processDocs postStatus blockFetch rest seen') w := by
      simp only [processDocs]
      cases blockFetch pgid <;> rfl
    rw [h1]
    cases hfetch : blockFetch pgid with
    | error e => exact TraceOK.err seen w e
    | ok blks =>
      dsimp only
      rw [M_bind_eval]
      have hpb := processBlocks_traceOK postStatus blks seen w
      cases hres : processBlocks postStatus blks seen w with
      | mk r w₁ =>
        rw [hres] at hpb
        cases r with
        | error e =>
          obtain ⟨Δ, extra, hf, hn, hd, he, hnd, hout, _⟩ := hpb
          exact ⟨Δ, extra, hf, hn, hd, he, hnd, hout, fun _ h => by cases h⟩
        | ok seen₁ =>
          exact TraceOK.compose hpb (ih seen₁ w₁)

/-- Evaluation of `main`: load state, process databases, process documents,
then save — with any error short-circuiting past the save. -/
theorem mainModel_eval (postStatus : Nat → Nat)
    (dbFetch : String → String → Except Nat (List Page))
    (blockFetch : Option String → String → Except Nat (List Block))
    (dbIds pageIds : List String) (now nowEnd : String) (w : World) :
    mainModel postStatus dbFetch blockFetch dbIds pageIds now nowEnd w =
      match processDbs postStatus
          (dbFetch (runBoundary (load_state w.disk).last_checked now)) dbIds
          (load_state w.disk).seen_ids w with
      | (.error e, w₁) => (.error e, w₁)
      | (.ok seen', w₁) =>
        match (if pageIds.isEmpty then (pure seen' : M (List String))
               else processDocs postStatus
                 (blockFetch
                   (if runBoundary (load_state w.disk).last_checked now = ""
                    then none
                    else some (runBoundary (load_state w.disk).last_checked now)))
                 pageIds seen') w₁ with
        | (.error e, w₂) => (.error e, w₂)
        | (.ok seen'', w₂) =>
          (.ok (), { w₂ with disk := some (save_state ⟨some nowEnd, seen''⟩) }) := by
  simp only [mainModel]
  rw [M_bind_eval]
  dsimp only [loadStateM]
  rw [M_bind_eval]
  rcases hdb : processDbs postStatus
      (dbFetch (runBoundary (load_state w.disk).last_checked now)) dbIds
      (load_state w.disk).seen_ids w with ⟨r, w₁⟩
  cases r with
  | error e => rfl
  | ok seen' =>
    dsimp only
    by_cases hpe : pageIds.isEmpty = true
    · rw [if_pos hpe, if_pos hpe]
      rfl
    · rw [if_neg hpe, if_neg hpe]
      rw [M_bind_eval]
      rcases hdoc : processDocs postStatus
          (blockFetch
            (if runBoundary (load_state w.disk).last_checked now = ""
             then none
             else some (runBoundary (load_state w.disk).last_checked now)))
          pageIds seen' w₁ with ⟨r₂, w₂⟩
      cases r₂ with
      | error e => rfl
      | ok seen2 => rfl

/-- What one whole run does to the world: formats a list `Δ ++ extra` of
previously unseen, pairwise-distinct items (`extra` the at-most-one item
whose post failed), notifies exactly `Δ`, and rewrites the disk only when no
error occurred. -/
theorem mainModel_run (postStatus : Nat → Nat)
    (dbFetch : String → String → Except Nat (List Page))
    (blockFetch : Option String → String → Except Nat (List Block))
    (dbIds pageIds : List String) (now nowEnd : String) (w : World) :
    ∃ Δ extra,
      (mainModel postStatus dbFetch blockFetch dbIds pageIds
        now nowEnd w).2.formatted = w.formatted ++ Δ ++ extra ∧
      (mainModel postStatus dbFetch blockFetch dbIds pageIds
        now nowEnd w).2.notified = w.notified ++ Δ ∧
      extra.length ≤ 1 ∧
      (Δ ++ extra).Nodup ∧
      (∀ i ∈ Δ ++ extra, i ∉ (load_state w.disk).seen_ids) ∧
      ∀ e, (mainModel postStatus dbFetch blockFetch dbIds pageIds
        now nowEnd w).1 = .error e →
        (mainModel postStatus dbFetch blockFetch dbIds pageIds
          now nowEnd w).2.disk = w.disk := by
  rw [mainModel_eval]
  rcases hdb : processDbs postStatus
      (dbFetch (runBoundary (load_state w.disk).last_checked now)) dbIds
      (load_state w.disk).seen_ids w with ⟨r₁, w₁⟩
  have t1 := processDbs_traceOK postStatus
    (dbFetch (runBoundary (load_state w.disk).last_checked now)) dbIds
    (load_state w.disk).seen_ids w
  rw [hdb] at t1
  cases r₁ with
  | error e =>
    dsimp only
    obtain ⟨Δ, extra, hf, hn, hd, he, hnd, hout, _⟩ := t1
    exact ⟨Δ, extra, hf, hn, he, hnd, hout, fun _ _ => hd⟩
  | ok seen' =>
    dsimp only
    have t2 : TraceOK seen' w₁
        ((if pageIds.isEmpty then (pure seen' : M (List String))
          else processDocs postStatus
            (blockFetch
              (if runBoundary (load_state w.disk).last_checked now = ""
               then none
               else some (runBoundary (load_state w.disk).last_checked now)))
            pageIds seen') w₁) := by
      by_cases hpe : pageIds.isEmpty = true
      · rw [if_pos hpe]
        exact TraceOK.refl seen' w₁
      · rw [if_neg hpe]
        exact processDocs_traceOK postStatus _ pageIds seen' w₁
    rcases hdoc : (if pageIds.isEmpty then (pure seen' : M (List String))
        else processDocs postStatus
          (blockFetch
            (if runBoundary (load_state w.disk).last_checked now = ""
             then none
             else some (runBoundary (load_state w.disk).last_checked now)))
          pageIds seen') w₁ with ⟨r₂, w₂⟩
    rw [hdoc] at t2
    have t12 := TraceOK.compose t1 t2
    cases r₂ with
    | error e =>
      dsimp only
      obtain ⟨Δ, extra, hf, hn, hd, he, hnd, hout, _⟩ := t12
      exact ⟨Δ, extra, hf, hn, he, hnd, hout, fun _ _ => hd⟩
    | ok seen'' =>
      dsimp only
      obtain ⟨Δ, extra, hf, hn, _hd, he, hnd, hout, _⟩ := t12
      exact ⟨Δ, extra, hf, hn, he, hnd, hout, fun _ hc => by cases hc⟩

/-- C1: over a whole run of `main`, an item id already in `seen_ids` at the
time it comes up is skipped — it is never passed to a formatter and never
posted (`notified` traces the items whose webhook post succeeded) — and no id
is formatted or posted twice even if the source returns it again. -/
theorem seen_ids_are_skipped (postStatus : Nat → Nat)
    (dbFetch : String → String → Except Nat (List Page))
    (blockFetch : Option String → String → Except Nat (List Block))
    (dbIds pageIds : List String) (now nowEnd : String) (w : World)
    (hf : w.formatted = []) (hn : w.notified = []) :
    (∀ id ∈ (load_state w.disk).seen_ids,
        id ∉ (mainModel postStatus dbFetch blockFetch dbIds pageIds
          now nowEnd w).2.formatted ∧
        id ∉ (mainModel postStatus dbFetch blockFetch dbIds pageIds
          now nowEnd w).2.notified) ∧
    (mainModel postStatus dbFetch blockFetch dbIds pageIds
      now nowEnd w).2.formatted.Nodup ∧
    (∀ id ∈ (mainModel postStatus dbFetch blockFetch dbIds pageIds
        now nowEnd w).2.notified,
      id ∈ (mainModel postStatus dbFetch blockFetch dbIds pageIds
        now nowEnd w).2.formatted) := by
  obtain ⟨Δ, extra, hfm, hnt, _hel, hnd, hout, _⟩ :=
    mainModel_run postStatus dbFetch blockFetch dbIds pageIds now nowEnd w
  rw [hf] at hfm
  rw [hn] at hnt
  simp only [List.nil_append] at hfm hnt
  refine ⟨?_, ?_, ?_⟩
  · intro id hid
    constructor
    · rw [hfm]
      intro hc
      exact hout id hc hid
    · rw [hnt]
      intro hc
      exact hout id (by simp [hc]) hid
  · rw [hfm]
    exact hnd
  · intro id hid
    rw [hnt] at hid
    rw [hfm]
    simp [hid]

/-- The pre-run state file for the dedup witness: `"a"` was already notified
in an earlier run. -/
def wSeenA : World := ⟨some (save_state ⟨none, ["a"]⟩), [], [], []⟩

/-- A fetch oracle returning the same id twice plus one already-seen id. -/
def dbFetchABA : String → String → Except Nat (List Page) :=
  fun _ _ => .ok
    [⟨"a", "2024-01-01T00:00:05+00:00", none, []⟩,
     ⟨"b", "2024-01-01T00:00:06+00:00", none, []⟩,
     ⟨"a", "2024-01-01T00:00:05+00:00", none, []⟩]

/-- A block-fetch oracle returning nothing. -/
def blockFetchNone : Option String → String → Except Nat (List Block) :=
  fun _ _ => .ok []

/-- C1 witness: in a run whose source returns ids `a, b, a` against a
checkpoint already containing `a`, the already-seen `a` is neither formatted
nor posted and nothing is processed twice. -/
theorem seen_ids_are_skipped_witness :
    "a" ∉ (mainModel (fun _ => 200) dbFetchABA blockFetchNone ["db1"] []
      "2024-01-01T00:00:00+00:00" "2024-01-01T00:01:00+00:00"
      wSeenA).2.formatted ∧
    "a" ∉ (mainModel (fun _ => 200) dbFetchABA blockFetchNone ["db1"] []
      "2024-01-01T00:00:00+00:00" "2024-01-01T00:01:00+00:00"
      wSeenA).2.notified ∧
    (mainModel (fun _ => 200) dbFetchABA blockFetchNone ["db1"] []
      "2024-01-01T00:00:00+00:00" "2024-01-01T00:01:00+00:00"
      wSeenA).2.formatted.Nodup := by
  have h := seen_ids_are_skipped (fun _ => 200) dbFetchABA blockFetchNone
    ["db1"] [] "2024-01-01T00:00:00+00:00" "2024-01-01T00:01:00+00:00"
    wSeenA rfl rfl
  have ha := h.1 "a" (by decide)
  exact ⟨ha.1, ha.2, h.2.1⟩

/-- C3: if a run of `main` ends in an uncaught fetch/post error, the process
never reaches `save_state`, so the state file on disk still holds exactly its
pre-run content (timestamp and seen-id set unchanged). -/
theorem error_leaves_checkpoint (postStatus : Nat → Nat)
    (dbFetch : String → String → Except Nat (List Page))
    (blockFetch : Option String → String → Except Nat (List Block))
    (dbIds pageIds : List String) (now nowEnd : String) (w : World) (e : Nat)
    (h : (mainModel postStatus dbFetch blockFetch dbIds pageIds
      now nowEnd w).1 = .error e) :
    (mainModel postStatus dbFetch blockFetch dbIds pageIds
      now nowEnd w).2.disk = w.disk := by
  obtain ⟨_, _, _, _, _, _, _, hdisk⟩ :=
    mainModel_run postStatus dbFetch blockFetch dbIds pageIds now nowEnd w
  exact hdisk e h

/-- A fetch oracle whose first query raises an HTTP 503. -/
def dbFetchFail : String → String → Except Nat (List Page) :=
  fun _ _ => .error 503

/-- C3 witness: a run aborted by a fetch error leaves the pre-run state file
exactly in place. -/
theorem error_leaves_checkpoint_witness :
    (mainModel (fun _ => 200) dbFetchFail blockFetchNone ["db1"] []
      "2024-01-01T00:00:00+00:00" "2024-01-01T00:01:00+00:00"
      wSeenA).1 = .error 503 ∧
    (mainModel (fun _ => 200) dbFetchFail blockFetchNone ["db1"] []
      "2024-01-01T00:00:00+00:00" "2024-01-01T00:01:00+00:00"
      wSeenA).2.disk = wSeenA.disk :=
  ⟨rfl, error_leaves_checkpoint (fun _ => 200) dbFetchFail blockFetchNone
    ["db1"] [] "2024-01-01T00:00:00+00:00" "2024-01-01T00:01:00+00:00"
    wSeenA 503 rfl⟩

end NotionWatch
